import Mathlib

/-!
Verification of the render-instrumentation core in `src/core/native/instrument.ts`
(react-scan, native target): the measurement scheduler (FIFO queue, concurrency
cap `MAX_PENDING = 50`, 250 ms measurement cache, first-child-chain traversal to a
measurable host node) and the outline aggregator (geometry-key deduplication,
fail-fast `assertNative`, per-render-event try/catch, republish-by-copy of the
active-outline collection).

JavaScript numbers are embedded as `Int` (all claims are about integral data);
`Date.now()` is a clock value threaded through the state; the `WeakMap`
measurement cache and the object heap of the aggregator are association lists
keyed by numeric identities, where setting a key prepends a binding and lookup
takes the most recent one (observationally: in-place update).
-/

namespace ReactScan

/-- Geometry as delivered by the host bridge:
`{ x, y, width, height, pageX, pageY }` (`MeasurementValue` in the source). -/
structure MeasurementValue where
  x : Int
  y : Int
  width : Int
  height : Int
  pageX : Int
  pageY : Int
deriving DecidableEq

/-- The `canonical` object of a new-architecture state node, holding `nativeTag`. -/
structure Canonical where
  nativeTag : Int
deriving DecidableEq

/-- The optional `stateNode` of a fiber: a new-architecture `canonical.nativeTag`,
a legacy `_nativeTag`, and possibly a `measureInWindow` method. -/
structure StateNode where
  canonical : Option Canonical
  legacyNativeTag : Option Int
  measureInWindow : Bool
deriving DecidableEq

/-- A render-tree fiber: identity, optional `stateNode`, first child, sibling and
the identity of its `alternate` (alternates form cycles in the real tree, so only
the identity is carried). The instrumented code reads `stateNode`, `child` and
`alternate`; `sibling` is carried to state that the traversal never consults it. -/
inductive Fiber where
  | mk (id : Nat) (stateNode : Option StateNode) (child : Option Fiber)
      (sibling : Option Fiber) (alternateId : Option Nat)

mutual

def decEqFiber : (a b : Fiber) → Decidable (a = b)
  | .mk i1 sn1 c1 s1 a1, .mk i2 sn2 c2 s2 a2 =>
    match Nat.decEq i1 i2 with
    | isFalse h => isFalse (by intro he; cases he; exact h rfl)
    | isTrue hi =>
      match decEq sn1 sn2 with
      | isFalse h => isFalse (by intro he; cases he; exact h rfl)
      | isTrue hsn =>
        match decEqOptFiber c1 c2 with
        | isFalse h => isFalse (by intro he; cases he; exact h rfl)
        | isTrue hc =>
          match decEqOptFiber s1 s2 with
          | isFalse h => isFalse (by intro he; cases he; exact h rfl)
          | isTrue hs =>
            match decEq a1 a2 with
            | isFalse h => isFalse (by intro he; cases he; exact h rfl)
            | isTrue ha => isTrue (by rw [hi, hsn, hc, hs, ha])

def decEqOptFiber : (a b : Option Fiber) → Decidable (a = b)
  | none, none => isTrue rfl
  | none, some _ => isFalse fun h => Option.noConfusion h
  | some _, none => isFalse fun h => Option.noConfusion h
  | some x, some y =>
    match decEqFiber x y with
    | isTrue h => isTrue (by rw [h])
    | isFalse h => isFalse (by intro he; cases he; exact h rfl)

end

instance : DecidableEq Fiber := decEqFiber

def Fiber.id : Fiber → Nat
  | .mk i _ _ _ _ => i

def Fiber.stateNode : Fiber → Option StateNode
  | .mk _ sn _ _ _ => sn

def Fiber.child : Fiber → Option Fiber
  | .mk _ _ c _ _ => c

def Fiber.sibling : Fiber → Option Fiber
  | .mk _ _ _ s _ => s

def Fiber.alternateId : Fiber → Option Nat
  | .mk _ _ _ _ a => a

/-- The host measurement capability exposed by a state node, in the priority
order the source checks them: `stateNode.canonical.nativeTag` (new architecture),
`stateNode._nativeTag` (legacy), `stateNode.measureInWindow`. -/
inductive Capability where
  | newArch (tag : Int)
  | legacy (tag : Int)
  | inWindow
deriving DecidableEq

/-- Truthiness of `stateNode?.canonical?.nativeTag`: present and nonzero. -/
def canonicalTag (sn : StateNode) : Option Int :=
  match sn.canonical with
  | some c => if c.nativeTag = 0 then none else some c.nativeTag
  | none => none

/-- Truthiness of `stateNode?._nativeTag`: present and nonzero. -/
def legacyTag (sn : StateNode) : Option Int :=
  match sn.legacyNativeTag with
  | some t => if t = 0 then none else some t
  | none => none

/-- The capability checks performed on one node of the traversal, in source
order: new-architecture tag, then legacy tag, then `measureInWindow`. -/
def capOf : Option StateNode → Option Capability
  | none => none
  | some sn =>
    match canonicalTag sn with
    | some t => some (.newArch t)
    | none =>
      match legacyTag sn with
      | some t => some (.legacy t)
      | none => if sn.measureInWindow then some .inWindow else none

/-- The `while (measurableNode)` loop of `executeMeasurement`: starting at the
request's fiber, return the first node of the first-child chain exposing a
capability, together with that capability; descend via `child` only. -/
def findMeasurable : Fiber → Option (Fiber × Capability)
  | .mk i sn child sib alt =>
    match capOf sn with
    | some cap => some (.mk i sn child sib alt, cap)
    | none =>
      match child with
      | some c => findMeasurable c
      | none => none

/-- The nodes visited by the traversal: the fiber itself, then its first-child
chain. -/
def chainNodes : Fiber → List Fiber
  | .mk i sn child sib alt =>
    match child with
    | some c => .mk i sn child sib alt :: chainNodes c
    | none => [.mk i sn child sib alt]

/-- Erase every `sibling` link reachable through `child` links (used to state
that the traversal never consults sibling subtrees). -/
def stripSiblings : Fiber → Fiber
  | .mk i sn child _ alt =>
    match child with
    | some c => .mk i sn (some (stripSiblings c)) none alt
    | none => .mk i sn none none alt

/-- A `measurementCache` entry: `{ measurement, timestamp }`. -/
structure CacheEntry where
  measurement : MeasurementValue
  timestamp : Int
deriving DecidableEq

/-- A queued measurement request: the fiber, whether an `callback` was supplied,
and the identity of the promise to settle (`resolve`). -/
structure Request where
  fiber : Fiber
  hasCallback : Bool
  reqId : Nat
deriving DecidableEq

/-- `MAX_PENDING = 50`: React Native warns if too many promises are pending. -/
def MAX_PENDING : Int := 50

/-- The scheduler state outside the queue: `pendingCount`, the `measurementCache`
(keyed by fiber identity), the outstanding host-bridge calls (call id, request,
capability used), the record of settled promises and of invoked callbacks (most
recent first), a fresh-call-id counter, and the current `Date.now()` clock. -/
structure CoreState where
  pendingCount : Int
  cache : List (Nat × CacheEntry)
  inFlight : List (Nat × Request × Capability)
  resolved : List (Nat × Option MeasurementValue)
  callbackCalls : List (Nat × Option MeasurementValue)
  nextCallId : Nat
  now : Int
deriving DecidableEq

/-- Settle a request: `callback?.(v); resolve(v); pendingCount--`. -/
def resolveWith (req : Request) (v : Option MeasurementValue) (core : CoreState) :
    CoreState :=
  { core with
    callbackCalls :=
      if req.hasCallback then (req.reqId, v) :: core.callbackCalls
      else core.callbackCalls
    resolved := (req.reqId, v) :: core.resolved
    pendingCount := core.pendingCount - 1 }

/-- Outcome of `executeMeasurement` on one dequeued request: either the request
settled synchronously (its concurrency slot is released and the drain continues)
or a host-bridge call was dispatched (the slot stays occupied). -/
inductive ExecOutcome where
  | settled (core : CoreState)
  | dispatched (core : CoreState)
deriving DecidableEq

/-- The traversal-and-dispatch tail of `executeMeasurement`: walk the first-child
chain; on the first capability found, issue the host-bridge call (recording it as
in flight); if no node of the chain is measurable, settle with `null`. -/
def dispatchMeasurement (req : Request) (core : CoreState) : ExecOutcome :=
  match findMeasurable req.fiber with
  | some (_, cap) =>
    .dispatched
      { core with
        inFlight := (core.nextCallId, req, cap) :: core.inFlight
        nextCallId := core.nextCallId + 1 }
  | none => .settled (resolveWith req none core)

/-- `executeMeasurement`: if a cache entry for the fiber exists and was written
less than 250 ms ago, settle with the cached measurement; otherwise traverse and
dispatch to the host bridge. -/
def executeMeasurementCore (req : Request) (core : CoreState) : ExecOutcome :=
  match List.lookup req.fiber.id core.cache with
  | some entry =>
    if core.now - entry.timestamp < 250 then
      .settled (resolveWith req (some entry.measurement) core)
    else
      dispatchMeasurement req core
  | none => dispatchMeasurement req core

/-- `processQueue`: return if `pendingCount >= MAX_PENDING` or the queue is
empty; otherwise shift the head request, increment `pendingCount`, run
`executeMeasurement` on it, and keep draining whenever the request settled
synchronously (in the source, via the recursive `processQueue()` calls in the
cache-hit and null branches). -/
def processQueue (core : CoreState) : List Request → CoreState × List Request
  | [] => (core, [])
  | req :: rest =>
    if core.pendingCount ≥ MAX_PENDING then (core, req :: rest)
    else
      match executeMeasurementCore req
          { core with pendingCount := core.pendingCount + 1 } with
      | .settled core1 => processQueue core1 rest
      | .dispatched core1 => (core1, rest)

/-- `handleMeasurement`, the host-bridge callback: build the `coords` geometry,
cache it under the measured request's fiber and, when present, under that
fiber's alternate, both stamped with the current time; then invoke the optional
callback, settle the promise with the geometry and release the slot. -/
def handleMeasurement (fiber : Fiber) (hasCallback : Bool) (reqId : Nat)
    (x y width height pageX pageY : Int) (core : CoreState) : CoreState :=
  let coords : MeasurementValue := { x, y, width, height, pageX, pageY }
  let core1 :=
    { core with
      cache := (fiber.id, { measurement := coords, timestamp := core.now }) ::
        core.cache }
  let core2 :=
    match fiber.alternateId with
    | some altId =>
      { core1 with
        cache := (altId, { measurement := coords, timestamp := core1.now }) ::
          core1.cache }
    | none => core1
  let core3 :=
    if hasCallback then
      { core2 with callbackCalls := (reqId, some coords) :: core2.callbackCalls }
    else core2
  { core3 with
    resolved := (reqId, some coords) :: core3.resolved
    pendingCount := core3.pendingCount - 1 }

/-- Whole scheduler state: the FIFO queue plus the core state. -/
structure SchedState where
  queue : List Request
  core : CoreState
deriving DecidableEq

/-- Remove the (first) in-flight record with the given call id: a host-bridge
callback consumes its pending call. -/
def removeCall (callId : Nat) :
    List (Nat × Request × Capability) → List (Nat × Request × Capability)
  | [] => []
  | e :: rest => if e.1 = callId then rest else e :: removeCall callId rest

/-- External events driving the scheduler: a `measureFiber` call (enqueue and
drain) and the asynchronous return of a dispatched host-bridge call, carrying
the six numbers the bridge reports and the time of the callback. -/
inductive Event where
  | measure (req : Request) (now : Int)
  | bridgeReturn (callId : Nat) (x y width height pageX pageY : Int) (now : Int)
deriving DecidableEq

/-- One scheduler transition. `measure` is `measureFiber`: push the request and
run `processQueue`. `bridgeReturn` fires the callback of an outstanding call:
for a tag-based call the bridge supplies all six coordinates; a `measureInWindow`
callback only supplies `x, y, width, height`, and the source forwards
`handleMeasurement(x, y, width, height, x, y)`. A callback then drains the queue
again (the `processQueue()` call at the end of `handleMeasurement`). -/
def step (st : SchedState) : Event → SchedState
  | .measure req now =>
    let core0 := { st.core with now := now }
    let p := processQueue core0 (st.queue ++ [req])
    { queue := p.2, core := p.1 }
  | .bridgeReturn callId x y width height pageX pageY now =>
    match List.lookup callId st.core.inFlight with
    | none => st
    | some (req, cap) =>
      let core0 :=
        { st.core with now := now, inFlight := removeCall callId st.core.inFlight }
      let core1 :=
        match cap with
        | .inWindow =>
          handleMeasurement req.fiber req.hasCallback req.reqId
            x y width height x y core0
        | .newArch _ =>
          handleMeasurement req.fiber req.hasCallback req.reqId
            x y width height pageX pageY core0
        | .legacy _ =>
          handleMeasurement req.fiber req.hasCallback req.reqId
            x y width height pageX pageY core0
      let p := processQueue core1 st.queue
      { queue := p.2, core := p.1 }

/-- Initial scheduler state: empty queue, empty cache, no pending calls. -/
def initState : SchedState :=
  { queue := []
    core :=
      { pendingCount := 0, cache := [], inFlight := [], resolved := []
        callbackCalls := [], nextCallId := 0, now := 0 } }

/-- Run a sequence of events from the initial state. -/
def run (evs : List Event) : SchedState :=
  evs.foldl step initState

/-- `measureFiber(fiber, callback?)`: push a request onto the queue and drain. -/
def measureFiber (fiber : Fiber) (hasCallback : Bool) (reqId : Nat) (now : Int)
    (st : SchedState) : SchedState :=
  step st (.measure { fiber := fiber, hasCallback := hasCallback, reqId := reqId } now)

/-- The scheduler invariant: the pending counter equals the number of
outstanding host-bridge calls and never exceeds `MAX_PENDING`. -/
def SchedInv (st : SchedState) : Prop :=
  st.core.pendingCount = st.core.inFlight.length ∧
  st.core.pendingCount ≤ MAX_PENDING

/-! ## Outline aggregator (`getKey`, `assertNative`, `updateOutlines`)

The aggregator mutates a shared object graph (the `activeOutlines` array and the
`ActiveOutline` objects it holds), so object identity matters to its claims. It
is embedded with an explicit heap: arrays and outline objects live in
association lists keyed by numeric addresses, a mutation writes a new binding
for an existing address, and an allocation uses a fresh address. -/

/-- `getKey`: the geometry key string
built from `pageX`, `pageY`, `width` and `height`. -/
def getKey (measurement : MeasurementValue) : String :=
  toString measurement.pageX ++ "-" ++ toString measurement.pageY ++ "-" ++
    toString measurement.width ++ "-" ++ toString measurement.height

/-- A stored measurement: a `kind` discriminator (the web target uses other
kinds) and the geometry value. -/
structure Measurement where
  kind : String
  value : MeasurementValue
deriving DecidableEq

/-- `assertNative`: throw `Error('native invariant')` unless the measurement is
of the native kind; otherwise return the measurement itself. -/
def assertNative (measurement : Measurement) : Except String Measurement :=
  if measurement.kind ≠ "native" then .error "native invariant"
  else .ok measurement

/-- A render event; its payload is irrelevant to the aggregator, which only
stores and counts the events, so it is embedded as an opaque tag. -/
structure Render where
  tag : Nat
deriving DecidableEq

/-- `PendingOutline` (native shape): the latest measurement, the fiber the
outline was created for (by identity), and the accumulated render history. -/
structure PendingOutline where
  latestMeasurement : Measurement
  fiberId : Nat
  renders : List Render
deriving DecidableEq

/-- An entry of `ReactScanInternals.activeOutlines`: the pending outline, a
generated id, the display label, the update time, and the sentinel `-1`
presentation fields unused on the native target (the no-op `resolve` closure
carries no data and is omitted). -/
structure ActiveOutline where
  outline : PendingOutline
  id : Nat
  text : String
  updatedAt : Int
  alpha : Int
  frame : Int
  totalFrames : Int
deriving DecidableEq

/-- Aggregator state: the heap of arrays (address to list of outline
addresses), the heap of `ActiveOutline` objects (address to value), the address
currently published as `ReactScanInternals.activeOutlines`, and fresh-address
counters. Writing a binding prepends it; `List.lookup` reads the newest one. -/
structure AggState where
  arrays : List (Nat × List Nat)
  outlines : List (Nat × ActiveOutline)
  activeOutlines : Nat
  nextArrayId : Nat
  nextOutlineId : Nat
deriving DecidableEq

/-- Write a binding into a heap: models in-place mutation of the object at
address `k` (or allocation when `k` is fresh). -/
def heapSet (heap : List (Nat × α)) (k : Nat) (v : α) : List (Nat × α) :=
  (k, v) :: heap

/-- The element list of the array object at address `arr`. -/
def arrayContents (st : AggState) (arr : Nat) : List Nat :=
  (List.lookup arr st.arrays).getD []

/-- The element list of the currently published collection. -/
def publishedContents (st : AggState) : List Nat :=
  arrayContents st st.activeOutlines

/-- Modelled from the spec: `getLabelText` lives in `src/core/utils`, which is
not part of the sources here; the spec says the display label is recomputed
from the updated render history, so it is embedded as a concrete function of
the render list (its exact format is presentation-only). -/
def getLabelText (renders : List Render) (kind : String) : String :=
  toString renders.length ++ "x " ++ kind

/-- Modelled from the spec: `genId` lives in `src/core/web/outline`, which is
not part of the sources here; the spec says each new ActiveOutline gets a
freshly generated unique id, so it is embedded as the aggregator's fresh
outline counter. -/
def genId (counter : Nat) : Nat := counter

/-- Modelled from the spec: `getCopiedActiveOutlines` lives in
`src/core/utils`, which is not part of the sources here; the spec says every
mutation republishes the collection as a new sequence — fresh identity, same
entries — so identity-based change detection fires. Embedded as allocating a
fresh array address holding the same outline addresses and publishing it. -/
def getCopiedActiveOutlines (st : AggState) : AggState :=
  { st with
    arrays := heapSet st.arrays st.nextArrayId (publishedContents st)
    activeOutlines := st.nextArrayId
    nextArrayId := st.nextArrayId + 1 }

/-- The `Array.prototype.find` call of `updateOutlines`: scan the published
array's outlines left to right; `assertNative` throws out of the search on the
first non-native stored measurement it touches; otherwise return the first
outline whose stored geometry key equals the given key. -/
def findExistingOutline (key : String) (heap : List (Nat × ActiveOutline)) :
    List Nat → Except String (Option Nat)
  | [] => .ok none
  | oid :: rest =>
    match List.lookup oid heap with
    | none => findExistingOutline key heap rest
    | some ao =>
      match assertNative ao.outline.latestMeasurement with
      | .error e => .error e
      | .ok m =>
        if getKey m.value = key then .ok (some oid)
        else findExistingOutline key heap rest

/-- `updateOutlines(fiber, render)` after its two external suspension points,
whose results are passed in: `hostFiber` stands for `getNearestHostFiber(fiber)`
(defined outside these sources) and `measurement` for the awaited
`measureFiber(fiber)` result. Guards: bail out when there is no host fiber,
when the measurement is `null`, and when `measurement.pageX` is falsy (`0`).
Then, inside `try`: find an outline with the same geometry key — merging pushes
the render onto the existing outline object, recomputes its label, refreshes
`updatedAt` and republishes; otherwise a new `ActiveOutline` is pushed onto the
published array itself, which is then republished. Any exception is caught and
logged, leaving the state as it was before the `try` block. -/
def updateOutlines (hostFiber : Option Nat) (measurement : Option MeasurementValue)
    (fiberId : Nat) (render : Render) (now : Int) (st : AggState) : AggState :=
  match hostFiber with
  | none => st
  | some _ =>
    match measurement with
    | none => st
    | some m =>
      if m.pageX = 0 then st
      else
        match findExistingOutline (getKey m) st.outlines (publishedContents st) with
        | .error _ => st
        | .ok (some oid) =>
          match List.lookup oid st.outlines with
          | none => st
          | some existing =>
            let updated : ActiveOutline :=
              { existing with
                outline :=
                  { existing.outline with
                    renders := existing.outline.renders ++ [render] }
                text := getLabelText (existing.outline.renders ++ [render]) "native"
                updatedAt := now }
            getCopiedActiveOutlines
              { st with outlines := heapSet st.outlines oid updated }
        | .ok none =>
          let newOutline : PendingOutline :=
            { latestMeasurement := { kind := "native", value := m }
              fiberId := fiberId
              renders := [render] }
          let ao : ActiveOutline :=
            { outline := newOutline
              id := genId st.nextOutlineId
              text := getLabelText newOutline.renders "native"
              updatedAt := now
              alpha := -1
              frame := -1
              totalFrames := -1 }
          getCopiedActiveOutlines
            { st with
              outlines := heapSet st.outlines st.nextOutlineId ao
              arrays := heapSet st.arrays st.activeOutlines
                (publishedContents st ++ [st.nextOutlineId])
              nextOutlineId := st.nextOutlineId + 1 }

/-- Initial aggregator state: one empty published array. -/
def initAgg : AggState :=
  { arrays := [(0, [])], outlines := [], activeOutlines := 0
    nextArrayId := 1, nextOutlineId := 0 }

/-- The geometry key stored by the outline object at address `oid`, if any. -/
def outlineKey (st : AggState) (oid : Nat) : Option String :=
  (List.lookup oid st.outlines).map fun ao =>
    getKey ao.outline.latestMeasurement.value

/-- The stored geometry key of the outline object at address `o` in a heap. -/
def keyAt (heap : List (Nat × ActiveOutline)) (o : Nat) : Option String :=
  (List.lookup o heap).map fun ao => getKey ao.outline.latestMeasurement.value

/-- The render history of the outline object at address `oid`, if any. -/
def outlineRenders (st : AggState) (oid : Nat) : Option (List Render) :=
  (List.lookup oid st.outlines).map fun ao => ao.outline.renders

/-- Well-formedness of an aggregator state: the published array address and
every outline address reachable from it are below the fresh-address counters,
the published array exists, every published outline exists in the heap, and
every published outline stores a native-kind measurement (the aggregator only
ever creates native ones). -/
def AggWF (st : AggState) : Prop :=
  st.activeOutlines < st.nextArrayId ∧
  (List.lookup st.activeOutlines st.arrays).isSome ∧
  ∀ oid ∈ publishedContents st,
    oid < st.nextOutlineId ∧
    ∃ ao, List.lookup oid st.outlines = some ao ∧
      ao.outline.latestMeasurement.kind = "native"

/-- Geometry-key uniqueness of the published collection: no two published
outline addresses store the same geometry key. -/
def KeyUnique (st : AggState) : Prop :=
  (publishedContents st).Pairwise fun a b => outlineKey st a ≠ outlineKey st b

/-! ## Concrete states and traces used to instantiate the theorems -/

/-- A fiber with a new-architecture native tag and no children; its alternate
is the fiber with identity 1. -/
def exFiberA : Fiber :=
  .mk 0 (some { canonical := some { nativeTag := 7 }, legacyNativeTag := none
                measureInWindow := false }) none none (some 1)

/-- A fiber with identity 1, no state node and no children: nothing on its
(one-node) first-child chain is measurable. It is `exFiberA`'s alternate. -/
def exFiberB : Fiber := .mk 1 none none none (some 0)

/-- A fiber with no capability of its own whose only child is `exFiberA`. -/
def exFiberParent : Fiber := .mk 2 none (some exFiberA) none none

/-- Measure `exFiberA`, let the bridge report `(1, 2, 30, 40, 5, 6)`, then
measure its capability-less alternate `exFiberB` 90 ms later. -/
def exAltTrace : List Event :=
  [ .measure { fiber := exFiberA, hasCallback := false, reqId := 0 } 1000
  , .bridgeReturn 0 1 2 30 40 5 6 1010
  , .measure { fiber := exFiberB, hasCallback := false, reqId := 1 } 1100 ]

/-- A geometry at page position `(5, 6)`, size `30 x 40`. -/
def exMeas : MeasurementValue :=
  { x := 1, y := 2, width := 30, height := 40, pageX := 5, pageY := 6 }

/-- The same geometry key as `exMeas` with different local coordinates. -/
def exMeas2 : MeasurementValue :=
  { x := 9, y := 9, width := 30, height := 40, pageX := 5, pageY := 6 }

/-- A fresh cache entry for `exFiberA`, written at time 0. -/
def exEntry : CacheEntry := { measurement := exMeas, timestamp := 0 }

/-- A core state at the concurrency ceiling: 50 outstanding host-bridge calls
and a fresh cache entry for `exFiberA`. -/
def exCoreFull : CoreState :=
  { pendingCount := 50
    cache := [(0, exEntry)]
    inFlight := (List.range 50).map fun i =>
      (i, { fiber := exFiberB, hasCallback := false, reqId := i }, .newArch 7)
    resolved := [], callbackCalls := [], nextCallId := 50, now := 100 }

/-- The core state of `initState` with the clock at 100. -/
def exCoreIdle : CoreState :=
  { pendingCount := 0, cache := [(0, exEntry)], inFlight := [], resolved := []
    callbackCalls := [], nextCallId := 0, now := 100 }

/-- An aggregator state whose published collection holds one outline storing a
measurement of a non-native kind. -/
def exBadAgg : AggState :=
  { arrays := [(0, [5])]
    outlines :=
      [(5, { outline := { latestMeasurement := { kind := "dom", value := exMeas }
                          fiberId := 9, renders := [{ tag := 0 }] }
             id := 5, text := "", updatedAt := 0
             alpha := -1, frame := -1, totalFrames := -1 })]
    activeOutlines := 0, nextArrayId := 1, nextOutlineId := 6 }

/-! ## Lemmas about the scheduler -/

@[simp]
theorem resolveWith_pendingCount (req : Request) (v : Option MeasurementValue)
    (core : CoreState) :
    (resolveWith req v core).pendingCount = core.pendingCount - 1 := rfl

@[simp]
theorem resolveWith_inFlight (req : Request) (v : Option MeasurementValue)
    (core : CoreState) : (resolveWith req v core).inFlight = core.inFlight := rfl

@[simp]
theorem resolveWith_cache (req : Request) (v : Option MeasurementValue)
    (core : CoreState) : (resolveWith req v core).cache = core.cache := rfl

@[simp]
theorem resolveWith_nextCallId (req : Request) (v : Option MeasurementValue)
    (core : CoreState) : (resolveWith req v core).nextCallId = core.nextCallId := rfl

@[simp]
theorem resolveWith_now (req : Request) (v : Option MeasurementValue)
    (core : CoreState) : (resolveWith req v core).now = core.now := rfl

@[simp]
theorem resolveWith_resolved (req : Request) (v : Option MeasurementValue)
    (core : CoreState) :
    (resolveWith req v core).resolved = (req.reqId, v) :: core.resolved := rfl

/-- Characterization of a synchronous settlement: it releases the slot it was
given, leaves the cache, the in-flight calls and the call counter alone, and
records exactly one new settled promise. -/
theorem executeMeasurementCore_settled {req : Request} {core c' : CoreState}
    (h : executeMeasurementCore req core = .settled c') :
    c'.pendingCount = core.pendingCount - 1 ∧ c'.inFlight = core.inFlight ∧
    c'.cache = core.cache ∧ c'.now = core.now ∧
    c'.nextCallId = core.nextCallId ∧
    ∃ v, c'.resolved = (req.reqId, v) :: core.resolved := by
  unfold executeMeasurementCore dispatchMeasurement at h
  split at h
  · split at h
    · cases h
      refine ⟨rfl, rfl, rfl, rfl, rfl, _, rfl⟩
    · split at h
      · cases h
      · cases h
        refine ⟨rfl, rfl, rfl, rfl, rfl, _, rfl⟩
  · split at h
    · cases h
    · cases h
      refine ⟨rfl, rfl, rfl, rfl, rfl, _, rfl⟩

/-- Characterization of a dispatch: the slot stays occupied, the settled
records are untouched, and exactly one new in-flight host-bridge call with a
fresh call id is recorded. -/
theorem executeMeasurementCore_dispatched {req : Request} {core c' : CoreState}
    (h : executeMeasurementCore req core = .dispatched c') :
    c'.pendingCount = core.pendingCount ∧ c'.cache = core.cache ∧
    c'.resolved = core.resolved ∧ c'.now = core.now ∧
    c'.nextCallId = core.nextCallId + 1 ∧
    ∃ cap, c'.inFlight = (core.nextCallId, req, cap) :: core.inFlight := by
  unfold executeMeasurementCore dispatchMeasurement at h
  split at h
  · split at h
    · cases h
    · split at h
      · cases h
        refine ⟨rfl, rfl, rfl, rfl, rfl, _, rfl⟩
      · cases h
  · split at h
    · cases h
      refine ⟨rfl, rfl, rfl, rfl, rfl, _, rfl⟩
    · cases h

/-- Draining the queue preserves the accounting identity between the pending
counter and the outstanding host-bridge calls, and never pushes the counter
above the ceiling. -/
theorem processQueue_inv (q : List Request) (core : CoreState)
    (h1 : core.pendingCount = core.inFlight.length)
    (h2 : core.pendingCount ≤ MAX_PENDING) :
    (processQueue core q).1.pendingCount = (processQueue core q).1.inFlight.length ∧
    (processQueue core q).1.pendingCount ≤ MAX_PENDING := by
  induction q generalizing core with
  | nil => exact ⟨h1, h2⟩
  | cons req rest ih =>
    by_cases hge : core.pendingCount ≥ MAX_PENDING
    · simp only [processQueue, if_pos hge]
      exact ⟨h1, h2⟩
    · simp only [processQueue, if_neg hge]
      cases hex : executeMeasurementCore req
          { core with pendingCount := core.pendingCount + 1 } with
      | settled c1 =>
        obtain ⟨hp, hif, -, -, -, -⟩ := executeMeasurementCore_settled hex
        simp only at hp hif
        exact ih c1 (by rw [hp, hif]; omega) (by omega)
      | dispatched c1 =>
        obtain ⟨hp, -, -, -, -, cap, hif⟩ := executeMeasurementCore_dispatched hex
        simp only at hp hif
        constructor
        · rw [hp, hif]; simp [h1]
        · rw [hp]
          have hlt : core.pendingCount < MAX_PENDING := lt_of_not_ge hge
          omega

/-- Draining the queue only prepends settled records. -/
theorem processQueue_resolved_mono (q : List Request) (core : CoreState) :
    ∃ l, (processQueue core q).1.resolved = l ++ core.resolved := by
  induction q generalizing core with
  | nil => exact ⟨[], rfl⟩
  | cons req rest ih =>
    by_cases hge : core.pendingCount ≥ MAX_PENDING
    · simp only [processQueue, if_pos hge]
      exact ⟨[], rfl⟩
    · simp only [processQueue, if_neg hge]
      cases hex : executeMeasurementCore req
          { core with pendingCount := core.pendingCount + 1 } with
      | settled c1 =>
        obtain ⟨-, -, -, -, -, v, hres⟩ := executeMeasurementCore_settled hex
        obtain ⟨l, hl⟩ := ih c1
        refine ⟨l ++ [(req.reqId, v)], ?_⟩
        rw [hl, hres]
        simp
      | dispatched c1 =>
        obtain ⟨-, -, hres, -, -, -, -⟩ := executeMeasurementCore_dispatched hex
        exact ⟨[], by rw [hres]; simp⟩

@[simp]
theorem handleMeasurement_pendingCount (f : Fiber) (cb : Bool) (rid : Nat)
    (x y w h px py : Int) (core : CoreState) :
    (handleMeasurement f cb rid x y w h px py core).pendingCount =
      core.pendingCount - 1 := by
  unfold handleMeasurement
  cases f.alternateId <;> cases cb <;> rfl

@[simp]
theorem handleMeasurement_inFlight (f : Fiber) (cb : Bool) (rid : Nat)
    (x y w h px py : Int) (core : CoreState) :
    (handleMeasurement f cb rid x y w h px py core).inFlight = core.inFlight := by
  unfold handleMeasurement
  cases f.alternateId <;> cases cb <;> rfl

@[simp]
theorem handleMeasurement_nextCallId (f : Fiber) (cb : Bool) (rid : Nat)
    (x y w h px py : Int) (core : CoreState) :
    (handleMeasurement f cb rid x y w h px py core).nextCallId =
      core.nextCallId := by
  unfold handleMeasurement
  cases f.alternateId <;> cases cb <;> rfl

@[simp]
theorem handleMeasurement_now (f : Fiber) (cb : Bool) (rid : Nat)
    (x y w h px py : Int) (core : CoreState) :
    (handleMeasurement f cb rid x y w h px py core).now = core.now := by
  unfold handleMeasurement
  cases f.alternateId <;> cases cb <;> rfl

@[simp]
theorem handleMeasurement_resolved (f : Fiber) (cb : Bool) (rid : Nat)
    (x y w h px py : Int) (core : CoreState) :
    (handleMeasurement f cb rid x y w h px py core).resolved =
      (rid, some { x := x, y := y, width := w, height := h
                   pageX := px, pageY := py }) :: core.resolved := by
  unfold handleMeasurement
  cases f.alternateId <;> cases cb <;> rfl

/-- The bridge callback caches the geometry under the measured fiber's own
identity, stamped with the callback time. -/
theorem handleMeasurement_cache_self (f : Fiber) (cb : Bool) (rid : Nat)
    (x y w h px py : Int) (core : CoreState) :
    List.lookup f.id (handleMeasurement f cb rid x y w h px py core).cache =
      some { measurement := { x := x, y := y, width := w, height := h
                              pageX := px, pageY := py }
             timestamp := core.now } := by
  unfold handleMeasurement
  cases halt : f.alternateId with
  | none => cases cb <;> simp [List.lookup]
  | some a =>
    cases cb <;>
      · simp only [List.lookup]
        cases hb : (f.id == a) <;> simp [List.lookup]

/-- The bridge callback also caches the geometry under the fiber's alternate
when one exists, with the same timestamp. -/
theorem handleMeasurement_cache_alternate (f : Fiber) (cb : Bool) (rid : Nat)
    (x y w h px py : Int) (core : CoreState) (a : Nat)
    (halt : f.alternateId = some a) :
    List.lookup a (handleMeasurement f cb rid x y w h px py core).cache =
      some { measurement := { x := x, y := y, width := w, height := h
                              pageX := px, pageY := py }
             timestamp := core.now } := by
  unfold handleMeasurement
  rw [halt]
  cases cb <;> simp [List.lookup]

/-- A consumed callback removes exactly one in-flight record. -/
theorem removeCall_length {callId : Nat}
    {l : List (Nat × Request × Capability)} {x : Request × Capability}
    (h : List.lookup callId l = some x) :
    l.length = (removeCall callId l).length + 1 := by
  induction l with
  | nil => cases h
  | cons e rest ih =>
    by_cases he : e.1 = callId
    · simp [removeCall, he]
    · have hb : (callId == e.1) = false := by
        simp [Ne.symm he]
      obtain ⟨k, v⟩ := e
      simp only [List.lookup, hb] at h
      simp only [removeCall]
      rw [if_neg he]
      simp only [List.length_cons]
      rw [ih h]

theorem step_preserves_SchedInv (st : SchedState) (ev : Event)
    (h : SchedInv st) : SchedInv (step st ev) := by
  obtain ⟨h1, h2⟩ := h
  cases ev with
  | measure req now =>
    exact processQueue_inv (st.queue ++ [req]) { st.core with now := now } h1 h2
  | bridgeReturn callId x y w h px py now =>
    simp only [step]
    cases hl : List.lookup callId st.core.inFlight with
    | none => exact ⟨h1, h2⟩
    | some entry =>
      obtain ⟨req, cap⟩ := entry
      have hlen := removeCall_length hl
      cases cap <;>
        · refine processQueue_inv _ _ ?_ ?_ <;> simp <;> omega

theorem foldl_step_SchedInv (evs : List Event) (st : SchedState)
    (h : SchedInv st) : SchedInv (evs.foldl step st) := by
  induction evs generalizing st with
  | nil => exact h
  | cons ev rest ih => exact ih _ (step_preserves_SchedInv _ _ h)

theorem run_SchedInv (evs : List Event) : SchedInv (run evs) :=
  foldl_step_SchedInv evs initState
    (by constructor <;> simp [initState, MAX_PENDING])

/-- A fresh cache entry settles the request with the cached measurement. -/
theorem executeMeasurementCore_cache_hit {req : Request} {core : CoreState}
    {entry : CacheEntry}
    (hc : List.lookup req.fiber.id core.cache = some entry)
    (hfresh : core.now - entry.timestamp < 250) :
    executeMeasurementCore req core =
      .settled (resolveWith req (some entry.measurement) core) := by
  unfold executeMeasurementCore
  simp [hc, hfresh]

/-! ## Claim theorems for the measurement scheduler -/

/-- C2: over every sequence of scheduler events (enqueues via `measureFiber`
and host-bridge callbacks, in any interleaving — in particular enqueuing 200
simultaneous requests), the pending counter never exceeds the fixed ceiling
`MAX_PENDING = 50`, and the number of host-bridge calls concurrently in flight
(dequeued but not yet settled) never exceeds 50. -/
theorem scheduler_concurrency_cap (evs : List Event) :
    (run evs).core.pendingCount ≤ MAX_PENDING ∧
    (run evs).core.inFlight.length ≤ 50 := by
  obtain ⟨h1, h2⟩ := run_SchedInv evs
  refine ⟨h2, ?_⟩
  rw [h1] at h2
  simp only [MAX_PENDING] at h2
  exact_mod_cast h2

/-- C3: a request whose fiber has a cache entry written less than 250 ms ago is
settled with exactly that cached geometry and dispatches no host-bridge call
(first conjunct: the settle does not touch `inFlight` or the call counter);
and in the two-calls scenario — measure a measurable fiber, let the bridge
answer at `t1`, measure the same fiber again at `t2` with `t2 - t1 < 250` —
both promises settle with the same geometry while only a single host-bridge
call (`nextCallId = 1`) is ever issued. -/
theorem cache_hit_skips_bridge
    (req : Request) (core : CoreState) (entry : CacheEntry)
    (f g : Fiber) (tag : Int) (r1 r2 : Nat) (t0 t1 t2 : Int)
    (x y w h px py : Int)
    (hc : List.lookup req.fiber.id core.cache = some entry)
    (hfresh1 : core.now - entry.timestamp < 250)
    (hcap : findMeasurable f = some (g, .newArch tag))
    (hfresh : t2 - t1 < 250) :
    executeMeasurementCore req core =
      .settled (resolveWith req (some entry.measurement) core) ∧
    (run [ .measure { fiber := f, hasCallback := false, reqId := r1 } t0
         , .bridgeReturn 0 x y w h px py t1
         , .measure { fiber := f, hasCallback := false, reqId := r2 } t2
         ]).core.resolved
      = [(r2, some { x := x, y := y, width := w, height := h
                     pageX := px, pageY := py }),
         (r1, some { x := x, y := y, width := w, height := h
                     pageX := px, pageY := py })] ∧
    (run [ .measure { fiber := f, hasCallback := false, reqId := r1 } t0
         , .bridgeReturn 0 x y w h px py t1
         , .measure { fiber := f, hasCallback := false, reqId := r2 } t2
         ]).core.nextCallId = 1 := by
  refine ⟨executeMeasurementCore_cache_hit hc hfresh1, ?_⟩
  cases halt : f.alternateId with
  | none =>
    constructor <;>
      simp [run, step, initState, processQueue, executeMeasurementCore,
        dispatchMeasurement, handleMeasurement, removeCall, resolveWith,
        List.lookup, MAX_PENDING, hcap, hfresh, halt]
  | some a =>
    cases hb : (f.id == a) with
    | true =>
      constructor <;>
        simp [run, step, initState, processQueue, executeMeasurementCore,
          dispatchMeasurement, handleMeasurement, removeCall, resolveWith,
          List.lookup, MAX_PENDING, hcap, hfresh, halt, hb]
    | false =>
      constructor <;>
        simp [run, step, initState, processQueue, executeMeasurementCore,
          dispatchMeasurement, handleMeasurement, removeCall, resolveWith,
          List.lookup, MAX_PENDING, hcap, hfresh, halt, hb]

/-- Witness for C3 at a concrete input: a request on `exFiberA` against
`exCoreIdle` (which caches `exMeas` at time 0, clock 100) settles from the
cache. -/
theorem cache_hit_skips_bridge_witness :
    executeMeasurementCore { fiber := exFiberA, hasCallback := false, reqId := 3 }
        exCoreIdle =
      .settled (resolveWith { fiber := exFiberA, hasCallback := false, reqId := 3 }
        (some exMeas) exCoreIdle) :=
  (cache_hit_skips_bridge
    { fiber := exFiberA, hasCallback := false, reqId := 3 } exCoreIdle exEntry
    exFiberA exFiberA 7 0 1 1000 1010 1100 1 2 30 40 5 6
    (by decide) (by decide) (by decide) (by decide)).1

/-- C10: a dequeued request occupies a concurrency slot before the cache
freshness check runs. With a fresh cache entry for the head request: (1) while
the counter is at the ceiling, draining does nothing — the request is not
served even from the fresh cache; (2) below the ceiling, the drain step is the
freshness-check settle applied to the state whose counter was already
incremented (the transient slot); (3) below the ceiling the request is served
from the cache. -/
theorem slot_taken_before_cache_check
    (core : CoreState) (req : Request) (rest : List Request) (entry : CacheEntry)
    (hc : List.lookup req.fiber.id core.cache = some entry)
    (hfresh : core.now - entry.timestamp < 250) :
    (core.pendingCount ≥ MAX_PENDING →
      processQueue core (req :: rest) = (core, req :: rest)) ∧
    (core.pendingCount < MAX_PENDING →
      processQueue core (req :: rest) =
        processQueue
          (resolveWith req (some entry.measurement)
            { core with pendingCount := core.pendingCount + 1 }) rest) ∧
    (core.pendingCount < MAX_PENDING →
      (req.reqId, some entry.measurement) ∈
        (processQueue core (req :: rest)).1.resolved) := by
  have hc' : List.lookup req.fiber.id
      ({ core with pendingCount := core.pendingCount + 1 } : CoreState).cache =
      some entry := hc
  have hfresh' :
      ({ core with pendingCount := core.pendingCount + 1 } : CoreState).now -
        entry.timestamp < 250 := hfresh
  have hmain : ∀ hlt : core.pendingCount < MAX_PENDING,
      processQueue core (req :: rest) =
        processQueue
          (resolveWith req (some entry.measurement)
            { core with pendingCount := core.pendingCount + 1 }) rest := by
    intro hlt
    simp only [processQueue, if_neg (not_le.mpr hlt)]
    rw [executeMeasurementCore_cache_hit hc' hfresh']
  refine ⟨fun hge => by simp only [processQueue, if_pos hge], hmain, fun hlt => ?_⟩
  rw [hmain hlt]
  obtain ⟨l, hl⟩ := processQueue_resolved_mono rest
    (resolveWith req (some entry.measurement)
      { core with pendingCount := core.pendingCount + 1 })
  rw [hl]
  simp

/-- Witness for C10 at a concrete input: with 50 calls in flight
(`exCoreFull`), the queued request on `exFiberA` is not served although its
cache entry is fresh. -/
theorem slot_taken_before_cache_check_witness :
    processQueue exCoreFull
        [{ fiber := exFiberA, hasCallback := false, reqId := 99 }] =
      (exCoreFull, [{ fiber := exFiberA, hasCallback := false, reqId := 99 }]) :=
  (slot_taken_before_cache_check exCoreFull
    { fiber := exFiberA, hasCallback := false, reqId := 99 } [] exEntry
    (by decide) (by decide)).1 (by decide)

/-! ## Lemmas and claim theorems for the traversal and the bridge callback -/

/-- The traversal is the first-match search along the first-child chain. -/
theorem findMeasurable_eq_findSome : ∀ f : Fiber,
    findMeasurable f =
      (chainNodes f).findSome? fun n => (capOf n.stateNode).map fun cp => (n, cp)
  | .mk i sn child sib alt => by
    cases child with
    | none =>
      simp only [findMeasurable, chainNodes, List.findSome?, Fiber.stateNode]
      cases capOf sn <;> rfl
    | some c =>
      have ih := findMeasurable_eq_findSome c
      simp only [findMeasurable, chainNodes, List.findSome?_cons, Fiber.stateNode]
      cases capOf sn with
      | none => simpa using ih
      | some cap => rfl

/-- The traversal result (measured node identity and capability used) is
unchanged when every sibling link reachable through child links is erased: no
sibling subtree is ever consulted. -/
theorem findMeasurable_stripSiblings : ∀ f : Fiber,
    (findMeasurable (stripSiblings f)).map (fun p => (p.1.id, p.2)) =
      (findMeasurable f).map fun p => (p.1.id, p.2)
  | .mk i sn child sib alt => by
    cases child with
    | none =>
      simp only [stripSiblings, findMeasurable]
      cases capOf sn <;> rfl
    | some c =>
      have ih := findMeasurable_stripSiblings c
      simp only [stripSiblings, findMeasurable]
      cases capOf sn with
      | none => simpa using ih
      | some cap => rfl

/-- C4: the measurement traversal walks the first-child chain only. The
conjuncts state: (1) the traversal is the first-match search over the chain of
the node and its repeated first children; (2) erasing every sibling subtree
does not change the outcome; (3)–(5) at each node the three capability shapes
are tried in priority order (new-architecture tag, then legacy tag, then
`measureInWindow`); (6) a node with no capability of its own defers to its
first child (so the returned geometry is the descendant's); (7) on a cache
miss, the host-bridge call is dispatched with exactly the capability of the
first measurable chain node. -/
theorem traversal_first_child_chain
    (req : Request) (core : CoreState) (g : Fiber) (cap : Capability)
    (i : Nat) (sn : Option StateNode) (c : Fiber) (sib : Option Fiber)
    (alt : Option Nat)
    (hmiss : List.lookup req.fiber.id core.cache = none)
    (hfound : findMeasurable req.fiber = some (g, cap))
    (hnocap : capOf sn = none) :
    (∀ f : Fiber, findMeasurable f =
      (chainNodes f).findSome? fun n => (capOf n.stateNode).map fun cp => (n, cp)) ∧
    (∀ f : Fiber, (findMeasurable (stripSiblings f)).map (fun p => (p.1.id, p.2)) =
      (findMeasurable f).map fun p => (p.1.id, p.2)) ∧
    (∀ s t, canonicalTag s = some t → capOf (some s) = some (.newArch t)) ∧
    (∀ s t, canonicalTag s = none → legacyTag s = some t →
      capOf (some s) = some (.legacy t)) ∧
    (∀ s, canonicalTag s = none → legacyTag s = none →
      capOf (some s) = if s.measureInWindow then some .inWindow else none) ∧
    findMeasurable (.mk i sn (some c) sib alt) = findMeasurable c ∧
    executeMeasurementCore req core =
      .dispatched
        { core with
          inFlight := (core.nextCallId, req, cap) :: core.inFlight
          nextCallId := core.nextCallId + 1 } := by
  refine ⟨findMeasurable_eq_findSome, findMeasurable_stripSiblings,
    ?_, ?_, ?_, ?_, ?_⟩
  · intro s t ht
    simp [capOf, ht]
  · intro s t ht1 ht2
    simp [capOf, ht1, ht2]
  · intro s ht1 ht2
    simp [capOf, ht1, ht2]
  · simp only [findMeasurable, hnocap]
  · unfold executeMeasurementCore dispatchMeasurement
    rw [hmiss, hfound]

/-- Witness for C4 at a concrete input: `exFiberParent` has no capability of
its own; the dispatched call carries its child `exFiberA`'s new-architecture
tag. -/
theorem traversal_first_child_chain_witness :
    executeMeasurementCore
        { fiber := exFiberParent, hasCallback := false, reqId := 0 }
        initState.core =
      .dispatched
        { initState.core with
          inFlight := (0, { fiber := exFiberParent, hasCallback := false
                            reqId := 0 }, .newArch 7) :: initState.core.inFlight
          nextCallId := 1 } :=
  (traversal_first_child_chain
    { fiber := exFiberParent, hasCallback := false, reqId := 0 }
    initState.core exFiberA (.newArch 7) 2 none exFiberA none none
    rfl rfl rfl).2.2.2.2.2.2

/-- C6 (amended): a request settles with `null` only when no node of its
first-child chain exposes a capability; and it settles with `null` whenever no
chain node exposes a capability and the fiber has no fresh cache entry. (When
a fresh cache entry exists — possible for a capability-less fiber via the
alternate mirroring of `handleMeasurement` — the request settles with the
cached geometry instead; see the counterexample. The embedding of
`measureFiber` and its settle logic is a total function: no code path
throws.) -/
theorem null_resolution_no_capability
    (req : Request) (core c' : CoreState) :
    (executeMeasurementCore req core = .settled c' →
      c'.resolved = (req.reqId, none) :: core.resolved →
      findMeasurable req.fiber = none) ∧
    (findMeasurable req.fiber = none →
      (∀ e, List.lookup req.fiber.id core.cache = some e →
        250 ≤ core.now - e.timestamp) →
      executeMeasurementCore req core = .settled (resolveWith req none core)) := by
  constructor
  · intro hex hres
    unfold executeMeasurementCore dispatchMeasurement at hex
    split at hex
    · split at hex
      · cases hex
        simp only [resolveWith_resolved] at hres
        cases hres
      · split at hex
        · cases hex
        · cases hex
          assumption
    · split at hex
      · cases hex
      · cases hex
        assumption
  · intro hnone hstale
    unfold executeMeasurementCore dispatchMeasurement
    split
    · rename_i entry hentry
      rw [if_neg (by have := hstale entry hentry; omega)]
      rw [hnone]
    · rw [hnone]

/-- Witness for C6 (amended) at a concrete input: `exFiberB` has no capability
anywhere and `initState` has no cache entry, so a request on it settles with
`null`. -/
theorem null_resolution_no_capability_witness :
    executeMeasurementCore { fiber := exFiberB, hasCallback := false, reqId := 4 }
        initState.core =
      .settled (resolveWith { fiber := exFiberB, hasCallback := false, reqId := 4 }
        none initState.core) :=
  (null_resolution_no_capability
    { fiber := exFiberB, hasCallback := false, reqId := 4 }
    initState.core initState.core).2 rfl (by intro e he; cases he)

/-- Counterexample to C6 as stated: after measuring `exFiberA` (whose alternate
is `exFiberB`) and receiving the bridge callback, a `measureFiber` call on
`exFiberB` 90 ms later resolves with the cached geometry `exMeas` — a
non-`null` resolution although no node along `exFiberB`'s traversal chain
exposes any measurement capability, so "resolves with null exactly when no
chain node is measurable" fails in the only-if direction. -/
theorem null_resolution_counterexample :
    findMeasurable exFiberB = none ∧
    List.lookup 1 (run exAltTrace).core.resolved = some (some exMeas) := by
  constructor
  · rfl
  · decide

@[simp]
theorem handleMeasurement_callbackCalls_true (f : Fiber) (rid : Nat)
    (x y w h px py : Int) (core : CoreState) :
    (handleMeasurement f true rid x y w h px py core).callbackCalls =
      (rid, some { x := x, y := y, width := w, height := h
                   pageX := px, pageY := py }) :: core.callbackCalls := by
  unfold handleMeasurement
  cases f.alternateId <;> rfl

/-- C8: the host-bridge callback (`handleMeasurement`) caches the built
geometry under the measured request's fiber identity and, when an alternate
exists, under the alternate's identity — both stamped with the current time —
and settles the promise with that geometry, invoking the optional callback
with it. -/
theorem bridge_callback_caches_and_settles
    (f : Fiber) (cb : Bool) (rid : Nat) (x y w h px py : Int)
    (core : CoreState) :
    List.lookup f.id (handleMeasurement f cb rid x y w h px py core).cache =
      some { measurement := { x := x, y := y, width := w, height := h
                              pageX := px, pageY := py }
             timestamp := core.now } ∧
    (∀ a, f.alternateId = some a →
      List.lookup a (handleMeasurement f cb rid x y w h px py core).cache =
        some { measurement := { x := x, y := y, width := w, height := h
                                pageX := px, pageY := py }
               timestamp := core.now }) ∧
    (handleMeasurement f cb rid x y w h px py core).resolved =
      (rid, some { x := x, y := y, width := w, height := h
                   pageX := px, pageY := py }) :: core.resolved ∧
    (cb = true →
      (handleMeasurement f cb rid x y w h px py core).callbackCalls =
        (rid, some { x := x, y := y, width := w, height := h
                     pageX := px, pageY := py }) :: core.callbackCalls) := by
  refine ⟨handleMeasurement_cache_self f cb rid x y w h px py core,
    fun a ha => handleMeasurement_cache_alternate f cb rid x y w h px py core a ha,
    handleMeasurement_resolved f cb rid x y w h px py core,
    fun hcb => ?_⟩
  subst hcb
  exact handleMeasurement_callbackCalls_true f rid x y w h px py core

/-- Witness for C8 at a concrete input: the callback for `exFiberA` (whose
alternate has identity 1) also caches the geometry under identity 1 at the
current time. -/
theorem bridge_callback_caches_and_settles_witness :
    List.lookup 1 (handleMeasurement exFiberA true 5 1 2 30 40 5 6 exCoreIdle).cache =
      some { measurement := exMeas, timestamp := 100 } :=
  (bridge_callback_caches_and_settles exFiberA true 5 1 2 30 40 5 6
    exCoreIdle).2.1 1 rfl

/-! ## Lemmas about the aggregator -/

@[simp]
theorem lookup_heapSet_self (h : List (Nat × α)) (k : Nat) (v : α) :
    List.lookup k (heapSet h k v) = some v := by
  simp [heapSet, List.lookup]

theorem lookup_heapSet_ne (h : List (Nat × α)) (k k' : Nat) (v : α)
    (hne : k' ≠ k) : List.lookup k' (heapSet h k v) = List.lookup k' h := by
  have hb : (k' == k) = false := by simpa using hne
  simp [heapSet, List.lookup, hb]

@[simp]
theorem getCopied_outlines (st : AggState) :
    (getCopiedActiveOutlines st).outlines = st.outlines := rfl

@[simp]
theorem getCopied_activeOutlines (st : AggState) :
    (getCopiedActiveOutlines st).activeOutlines = st.nextArrayId := rfl

@[simp]
theorem getCopied_nextArrayId (st : AggState) :
    (getCopiedActiveOutlines st).nextArrayId = st.nextArrayId + 1 := rfl

@[simp]
theorem getCopied_nextOutlineId (st : AggState) :
    (getCopiedActiveOutlines st).nextOutlineId = st.nextOutlineId := rfl

@[simp]
theorem getCopied_arrays (st : AggState) :
    (getCopiedActiveOutlines st).arrays =
      heapSet st.arrays st.nextArrayId (publishedContents st) := rfl

/-- Republishing keeps the published element list. -/
theorem publishedContents_getCopied (st : AggState) :
    publishedContents (getCopiedActiveOutlines st) = publishedContents st := by
  simp [publishedContents, arrayContents, getCopiedActiveOutlines, heapSet,
    List.lookup]

/-- Unfolding equation for the search on a nonempty list. -/
theorem findExistingOutline_cons (key : String)
    (heap : List (Nat × ActiveOutline)) (o : Nat) (rest : List Nat) :
    findExistingOutline key heap (o :: rest) =
      match List.lookup o heap with
      | none => findExistingOutline key heap rest
      | some ao =>
        match assertNative ao.outline.latestMeasurement with
        | .error e => .error e
        | .ok m =>
          if getKey m.value = key then .ok (some o)
          else findExistingOutline key heap rest := rfl

/-- On a native measurement, `assertNative` is the identity. -/
theorem assertNative_ok {m : Measurement} (h : m.kind = "native") :
    assertNative m = .ok m := by
  unfold assertNative
  rw [if_neg (by simp [h])]

/-- A search that found nothing certifies that no published outline stores the
searched key. -/
theorem findExisting_ok_none {key : String} {heap : List (Nat × ActiveOutline)} :
    ∀ {l : List Nat}, findExistingOutline key heap l = .ok none →
      ∀ oid ∈ l, ∀ ao, List.lookup oid heap = some ao →
        getKey ao.outline.latestMeasurement.value ≠ key := by
  intro l
  induction l with
  | nil => intro _ oid hm; cases hm
  | cons o rest ih =>
    intro h oid hm ao hao
    rw [findExistingOutline_cons] at h
    cases hm with
    | head =>
      simp only [hao] at h
      cases hk : assertNative ao.outline.latestMeasurement with
      | error e => simp only [hk] at h; cases h
      | ok mm =>
        simp only [hk] at h
        unfold assertNative at hk
        split at hk
        · cases hk
        · cases hk
          split at h
          · cases h
          · assumption
    | tail _ hm' =>
      cases hlo : List.lookup o heap with
      | none =>
        simp only [hlo] at h
        exact ih h oid hm' ao hao
      | some ao' =>
        simp only [hlo] at h
        cases hk : assertNative ao'.outline.latestMeasurement with
        | error e => simp only [hk] at h; cases h
        | ok mm =>
          simp only [hk] at h
          split at h
          · cases h
          · exact ih h oid hm' ao hao

/-- A successful search returns a published outline that exists, stores a
native measurement and matches the key. -/
theorem findExisting_ok_some {key : String} {heap : List (Nat × ActiveOutline)} :
    ∀ {l : List Nat} {oid : Nat}, findExistingOutline key heap l = .ok (some oid) →
      oid ∈ l ∧ ∃ ao, List.lookup oid heap = some ao ∧
        ao.outline.latestMeasurement.kind = "native" ∧
        getKey ao.outline.latestMeasurement.value = key := by
  intro l
  induction l with
  | nil => intro oid h; cases h
  | cons o rest ih =>
    intro oid h
    rw [findExistingOutline_cons] at h
    cases hlo : List.lookup o heap with
    | none =>
      simp only [hlo] at h
      obtain ⟨hm, hrest⟩ := ih h
      exact ⟨List.mem_cons_of_mem _ hm, hrest⟩
    | some ao =>
      simp only [hlo] at h
      cases hk : assertNative ao.outline.latestMeasurement with
      | error e => simp only [hk] at h; cases h
      | ok mm =>
        simp only [hk] at h
        have hnat : ao.outline.latestMeasurement.kind = "native" ∧
            mm = ao.outline.latestMeasurement := by
          unfold assertNative at hk
          split at hk
          · cases hk
          · cases hk
            exact ⟨by simpa using ‹¬ao.outline.latestMeasurement.kind ≠ "native"›, rfl⟩
        split at h
        · cases h
          refine ⟨List.mem_cons_self _ _, ao, hlo, hnat.1, ?_⟩
          rw [← hnat.2]
          assumption
        · obtain ⟨hm, hrest⟩ := ih h
          exact ⟨List.mem_cons_of_mem _ hm, hrest⟩

/-- If every looked-up outline of the list stores a native measurement with a
key different from the searched one, the search finds nothing. -/
theorem findExisting_of_none {key : String} {heap : List (Nat × ActiveOutline)} :
    ∀ {l : List Nat},
      (∀ oid ∈ l, ∀ ao, List.lookup oid heap = some ao →
        ao.outline.latestMeasurement.kind = "native" ∧
        getKey ao.outline.latestMeasurement.value ≠ key) →
      findExistingOutline key heap l = .ok none := by
  intro l
  induction l with
  | nil => intro _; rfl
  | cons o rest ih =>
    intro hall
    rw [findExistingOutline_cons]
    cases hlo : List.lookup o heap with
    | none => exact ih fun oid hm => hall oid (List.mem_cons_of_mem _ hm)
    | some ao =>
      obtain ⟨hnat, hne⟩ := hall o (List.mem_cons_self _ _) ao hlo
      simp only [assertNative_ok hnat]
      rw [if_neg hne]
      exact ih fun oid hm => hall oid (List.mem_cons_of_mem _ hm)

/-- Skipping a prefix of non-matching native outlines. -/
theorem findExisting_append {key : String} {heap : List (Nat × ActiveOutline)} :
    ∀ {l1 : List Nat} (l2 : List Nat),
      (∀ oid ∈ l1, ∀ ao, List.lookup oid heap = some ao →
        ao.outline.latestMeasurement.kind = "native" ∧
        getKey ao.outline.latestMeasurement.value ≠ key) →
      findExistingOutline key heap (l1 ++ l2) = findExistingOutline key heap l2 := by
  intro l1
  induction l1 with
  | nil => intro l2 _; rfl
  | cons o rest ih =>
    intro l2 hall
    simp only [List.cons_append]
    rw [findExistingOutline_cons]
    cases hlo : List.lookup o heap with
    | none => exact ih l2 fun oid hm => hall oid (List.mem_cons_of_mem _ hm)
    | some ao =>
      obtain ⟨hnat, hne⟩ := hall o (List.mem_cons_self _ _) ao hlo
      simp only [assertNative_ok hnat]
      rw [if_neg hne]
      exact ih l2 fun oid hm => hall oid (List.mem_cons_of_mem _ hm)

theorem outlineKey_eq_keyAt (st : AggState) (o : Nat) :
    outlineKey st o = keyAt st.outlines o := rfl

theorem keyAt_heapSet (heap : List (Nat × ActiveOutline)) (oid : Nat)
    (upd : ActiveOutline) (o : Nat) :
    keyAt (heapSet heap oid upd) o =
      if o = oid then some (getKey upd.outline.latestMeasurement.value)
      else keyAt heap o := by
  by_cases h : o = oid
  · subst h
    simp [keyAt]
  · rw [if_neg h]
    simp [keyAt, lookup_heapSet_ne _ _ _ _ h]

/-- Guard branch: a falsy (`0`) `pageX` aborts the aggregation. -/
theorem updateOutlines_pageX_zero (hf fid : Nat) (m : MeasurementValue)
    (r : Render) (now : Int) (st : AggState) (hpx : m.pageX = 0) :
    updateOutlines (some hf) (some m) fid r now st = st := by
  simp only [updateOutlines]
  rw [if_pos hpx]

/-- Catch branch: a search that throws leaves the state untouched. -/
theorem updateOutlines_error (hf fid : Nat) (m : MeasurementValue) (r : Render)
    (now : Int) (st : AggState) (e : String)
    (herr : findExistingOutline (getKey m) st.outlines (publishedContents st) =
      .error e) :
    updateOutlines (some hf) (some m) fid r now st = st := by
  by_cases hpx : m.pageX = 0
  · exact updateOutlines_pageX_zero hf fid m r now st hpx
  · simp only [updateOutlines]
    rw [if_neg hpx]
    simp only [herr]

/-- Merge branch: a key match pushes the render onto the existing outline
object, recomputes its label, refreshes `updatedAt`, and republishes. -/
theorem updateOutlines_merge (hf fid : Nat) (m : MeasurementValue) (r : Render)
    (now : Int) (st : AggState) (oid : Nat) (existing : ActiveOutline)
    (hpx : m.pageX ≠ 0)
    (hfind : findExistingOutline (getKey m) st.outlines (publishedContents st) =
      .ok (some oid))
    (hlx : List.lookup oid st.outlines = some existing) :
    updateOutlines (some hf) (some m) fid r now st =
      getCopiedActiveOutlines
        { st with
          outlines := heapSet st.outlines oid
            { existing with
              outline :=
                { existing.outline with
                  renders := existing.outline.renders ++ [r] }
              text := getLabelText (existing.outline.renders ++ [r]) "native"
              updatedAt := now } } := by
  simp only [updateOutlines]
  rw [if_neg hpx]
  simp only [hfind, hlx]

/-- Create branch: no key match pushes a fresh native outline onto the
published array object and republishes. -/
theorem updateOutlines_create (hf fid : Nat) (m : MeasurementValue) (r : Render)
    (now : Int) (st : AggState)
    (hpx : m.pageX ≠ 0)
    (hfind : findExistingOutline (getKey m) st.outlines (publishedContents st) =
      .ok none) :
    updateOutlines (some hf) (some m) fid r now st =
      getCopiedActiveOutlines
        { st with
          outlines := heapSet st.outlines st.nextOutlineId
            { outline := { latestMeasurement := { kind := "native", value := m }
                           fiberId := fid, renders := [r] }
              id := genId st.nextOutlineId
              text := getLabelText [r] "native"
              updatedAt := now, alpha := -1, frame := -1, totalFrames := -1 }
          arrays := heapSet st.arrays st.activeOutlines
            (publishedContents st ++ [st.nextOutlineId])
          nextOutlineId := st.nextOutlineId + 1 } := by
  simp only [updateOutlines]
  rw [if_neg hpx]
  simp only [hfind]

/-- Every aggregation step preserves well-formedness and geometry-key
uniqueness of the published collection. -/
theorem updateOutlines_preserves (hf : Option Nat)
    (mo : Option MeasurementValue) (fid : Nat) (r : Render) (now : Int)
    (st : AggState) (hWF : AggWF st) (hKU : KeyUnique st) :
    AggWF (updateOutlines hf mo fid r now st) ∧
    KeyUnique (updateOutlines hf mo fid r now st) := by
  obtain ⟨hctr, hpub, hmem⟩ := hWF
  cases hf with
  | none => exact ⟨⟨hctr, hpub, hmem⟩, hKU⟩
  | some hfv =>
    cases mo with
    | none => exact ⟨⟨hctr, hpub, hmem⟩, hKU⟩
    | some m =>
      by_cases hpx : m.pageX = 0
      · rw [updateOutlines_pageX_zero hfv fid m r now st hpx]
        exact ⟨⟨hctr, hpub, hmem⟩, hKU⟩
      · cases hfind : findExistingOutline (getKey m) st.outlines
            (publishedContents st) with
        | error e =>
          rw [updateOutlines_error hfv fid m r now st e hfind]
          exact ⟨⟨hctr, hpub, hmem⟩, hKU⟩
        | ok res =>
          cases res with
          | some oid =>
            obtain ⟨hoidmem, existing, hlx, hnat, hkeyeq⟩ :=
              findExisting_ok_some hfind
            rw [updateOutlines_merge hfv fid m r now st oid existing hpx
              hfind hlx]
            have hkeys : ∀ o,
                keyAt (heapSet st.outlines oid
                  { existing with
                    outline :=
                      { existing.outline with
                        renders := existing.outline.renders ++ [r] }
                    text := getLabelText (existing.outline.renders ++ [r])
                      "native"
                    updatedAt := now }) o = keyAt st.outlines o := by
              intro o
              rw [keyAt_heapSet]
              by_cases ho : o = oid
              · rw [if_pos ho, ho]
                simp [keyAt, hlx]
              · rw [if_neg ho]
            have hpc : publishedContents (getCopiedActiveOutlines
                { st with
                  outlines := heapSet st.outlines oid
                    { existing with
                      outline :=
                        { existing.outline with
                          renders := existing.outline.renders ++ [r] }
                      text := getLabelText (existing.outline.renders ++ [r])
                        "native"
                      updatedAt := now } }) = publishedContents st := by
              rw [publishedContents_getCopied]
              rfl
            constructor
            · refine ⟨by simp, by simp [heapSet, List.lookup], ?_⟩
              intro o ho
              rw [hpc] at ho
              obtain ⟨holt, ao, hao, haonat⟩ := hmem o ho
              refine ⟨by simpa using holt, ?_⟩
              by_cases hooid : o = oid
              · subst hooid
                refine ⟨{ existing with
                    outline :=
                      { existing.outline with
                        renders := existing.outline.renders ++ [r] }
                    text := getLabelText (existing.outline.renders ++ [r])
                      "native"
                    updatedAt := now }, lookup_heapSet_self _ _ _, ?_⟩
                simpa using hnat
              · exact ⟨ao, by simpa [lookup_heapSet_ne _ _ _ _ hooid] using hao,
                  haonat⟩
            · unfold KeyUnique
              rw [hpc]
              refine hKU.imp ?_
              intro a b hne
              rw [outlineKey_eq_keyAt, outlineKey_eq_keyAt]
              simp only [getCopied_outlines]
              rw [hkeys a, hkeys b]
              exact hne
          | none =>
            rw [updateOutlines_create hfv fid m r now st hpx hfind]
            have hnewkeys := findExisting_ok_none hfind
            have hpc : publishedContents (getCopiedActiveOutlines
                { st with
                  outlines := heapSet st.outlines st.nextOutlineId
                    { outline :=
                        { latestMeasurement := { kind := "native", value := m }
                          fiberId := fid, renders := [r] }
                      id := genId st.nextOutlineId
                      text := getLabelText [r] "native"
                      updatedAt := now, alpha := -1, frame := -1
                      totalFrames := -1 }
                  arrays := heapSet st.arrays st.activeOutlines
                    (publishedContents st ++ [st.nextOutlineId])
                  nextOutlineId := st.nextOutlineId + 1 }) =
                publishedContents st ++ [st.nextOutlineId] := by
              rw [publishedContents_getCopied]
              simp [publishedContents, arrayContents, lookup_heapSet_self]
            constructor
            · refine ⟨by simp, by simp [heapSet, List.lookup], ?_⟩
              intro o ho
              rw [hpc] at ho
              rcases List.mem_append.mp ho with hin | hnid
              · obtain ⟨holt, ao, hao, haonat⟩ := hmem o hin
                have hne : o ≠ st.nextOutlineId := by omega
                refine ⟨by simp; omega, ao, ?_, haonat⟩
                simpa [lookup_heapSet_ne _ _ _ _ hne] using hao
              · have : o = st.nextOutlineId := by simpa using hnid
                subst this
                exact ⟨by simp,
                  { outline :=
                      { latestMeasurement := { kind := "native", value := m }
                        fiberId := fid, renders := [r] }
                    id := genId st.nextOutlineId
                    text := getLabelText [r] "native"
                    updatedAt := now, alpha := -1, frame := -1
                    totalFrames := -1 },
                  lookup_heapSet_self _ _ _, rfl⟩
            · unfold KeyUnique
              rw [hpc]
              rw [List.pairwise_append]
              refine ⟨?_, by simp, ?_⟩
              · refine hKU.imp_of_mem ?_
                intro a b ha hb hne
                have hna : a ≠ st.nextOutlineId := by
                  have := (hmem a ha).1; omega
                have hnb : b ≠ st.nextOutlineId := by
                  have := (hmem b hb).1; omega
                rw [outlineKey_eq_keyAt, outlineKey_eq_keyAt]
                simp only [getCopied_outlines]
                rw [keyAt_heapSet, keyAt_heapSet, if_neg hna, if_neg hnb]
                rw [outlineKey_eq_keyAt, outlineKey_eq_keyAt] at hne
                exact hne
              · intro a ha b hb
                have hbnid : b = st.nextOutlineId := by simpa using hb
                subst hbnid
                obtain ⟨halt, ao, hao, haonat⟩ := hmem a ha
                have hna : a ≠ st.nextOutlineId := by omega
                rw [outlineKey_eq_keyAt, outlineKey_eq_keyAt]
                simp only [getCopied_outlines]
                rw [keyAt_heapSet, keyAt_heapSet, if_neg hna, if_pos rfl]
                have hka : keyAt st.outlines a =
                    some (getKey ao.outline.latestMeasurement.value) := by
                  simp [keyAt, hao]
                rw [hka]
                intro hcontra
                exact hnewkeys a ha ao hao (by simpa using hcontra)

/-! ## Claim theorems for the aggregator -/

/-- C9: a render event whose geometry resolved to `null`, or to a geometry
whose `pageX` is falsy — including the legitimate value `0` — aborts the
aggregation: no outline is created or updated and the collection is left
unchanged. -/
theorem null_or_zero_pageX_aborts (hf : Option Nat) (m : MeasurementValue)
    (fid : Nat) (r : Render) (now : Int) (st : AggState)
    (hpx : m.pageX = 0) :
    updateOutlines hf none fid r now st = st ∧
    updateOutlines hf (some m) fid r now st = st := by
  constructor
  · cases hf <;> rfl
  · cases hf with
    | none => rfl
    | some h => exact updateOutlines_pageX_zero h fid m r now st hpx

/-- Witness for C9 at a concrete input: a `null` measurement and a measurement
at page-origin `pageX = 0` both leave the initial collection unchanged. -/
theorem null_or_zero_pageX_aborts_witness :
    updateOutlines (some 0) none 0 { tag := 0 } 100 initAgg = initAgg ∧
    updateOutlines (some 0)
        (some { x := 1, y := 2, width := 30, height := 40
                pageX := 0, pageY := 6 })
        0 { tag := 0 } 100 initAgg = initAgg :=
  null_or_zero_pageX_aborts (some 0)
    { x := 1, y := 2, width := 30, height := 40, pageX := 0, pageY := 6 }
    0 { tag := 0 } 100 initAgg rfl

/-- C7: `assertNative` throws exactly when the stored measurement's kind is
not `"native"` and otherwise returns the measurement itself; an exception
raised by the match step (the search over the published outlines) is caught at
the per-render-event boundary — the state is left unchanged — and a subsequent
render event is processed exactly as if the failing event had never happened. -/
theorem assertNative_fail_fast_swallowed
    (meas : Measurement) (hf fid : Nat) (m : MeasurementValue) (r : Render)
    (now : Int) (st : AggState) (e : String)
    (herr : findExistingOutline (getKey m) st.outlines (publishedContents st) =
      .error e) :
    ((∃ msg, assertNative meas = .error msg) ↔ meas.kind ≠ "native") ∧
    (meas.kind = "native" → assertNative meas = .ok meas) ∧
    updateOutlines (some hf) (some m) fid r now st = st ∧
    (∀ hf2 mo2 fid2 r2 now2,
      updateOutlines hf2 mo2 fid2 r2 now2
          (updateOutlines (some hf) (some m) fid r now st) =
        updateOutlines hf2 mo2 fid2 r2 now2 st) := by
  have hswallow := updateOutlines_error hf fid m r now st e herr
  refine ⟨⟨?_, ?_⟩, fun h => assertNative_ok h, hswallow,
    fun hf2 mo2 fid2 r2 now2 => by rw [hswallow]⟩
  · rintro ⟨msg, hmsg⟩
    unfold assertNative at hmsg
    split at hmsg
    · assumption
    · cases hmsg
  · intro hne
    refine ⟨"native invariant", ?_⟩
    unfold assertNative
    rw [if_pos hne]

/-- Witness for C7 at a concrete input: `exBadAgg` publishes an outline of
kind `"dom"`, the search throws `native invariant`, and the render event
leaves the state untouched. -/
theorem assertNative_fail_fast_swallowed_witness :
    updateOutlines (some 0) (some exMeas) 0 { tag := 1 } 5 exBadAgg =
      exBadAgg :=
  (assertNative_fail_fast_swallowed
    { kind := "dom", value := exMeas } 0 0 exMeas { tag := 1 } 5 exBadAgg
    "native invariant" rfl).2.2.1

/-- C5 (amended): after every effective aggregator mutation (a merge or a
creation) the published collection reference differs by identity from the
previously published one — it is the freshly allocated array — but the
contents reachable from a previously captured reference do not stay unchanged:
the creation path pushes the new entry into the previously published array
object before copying, and the merge path mutates the matched outline object
in place (see the counterexample). -/
theorem republish_changes_identity
    (hf fid : Nat) (m : MeasurementValue) (r : Render) (now : Int)
    (st : AggState) (res : Option Nat)
    (hid : st.activeOutlines < st.nextArrayId)
    (hpx : m.pageX ≠ 0)
    (hres : findExistingOutline (getKey m) st.outlines (publishedContents st) =
      .ok res) :
    (updateOutlines (some hf) (some m) fid r now st).activeOutlines =
      st.nextArrayId ∧
    (updateOutlines (some hf) (some m) fid r now st).activeOutlines ≠
      st.activeOutlines := by
  cases res with
  | none =>
    rw [updateOutlines_create hf fid m r now st hpx hres]
    exact ⟨rfl, by simp; omega⟩
  | some oid =>
    obtain ⟨hmem, existing, hlx, -, -⟩ := findExisting_ok_some hres
    rw [updateOutlines_merge hf fid m r now st oid existing hpx hres hlx]
    exact ⟨rfl, by simp; omega⟩

/-- Witness for C5 (amended) at a concrete input: creating the first outline
republishes under a fresh array identity. -/
theorem republish_changes_identity_witness :
    (updateOutlines (some 0) (some exMeas) 0 { tag := 0 } 100
        initAgg).activeOutlines ≠ initAgg.activeOutlines :=
  (republish_changes_identity 0 0 exMeas { tag := 0 } 100 initAgg none
    (by decide) (by decide) rfl).2

/-- Counterexample to C5 as stated: processing one render event from the
initial state republishes under a new identity (first conjunct), but the
contents of the previously captured array reference (address
`initAgg.activeOutlines`) do not remain unchanged — the source pushes the new
`ActiveOutline` onto the published array itself before copying it, so a reader
holding the old reference observes the new entry. -/
theorem republish_snapshot_counterexample :
    (updateOutlines (some 0) (some exMeas) 0 { tag := 0 } 100
        initAgg).activeOutlines ≠ initAgg.activeOutlines ∧
    List.lookup initAgg.activeOutlines
        (updateOutlines (some 0) (some exMeas) 0 { tag := 0 } 100
          initAgg).arrays ≠
      List.lookup initAgg.activeOutlines initAgg.arrays := by
  decide

/-- After merging a render into the outline at address `nid` of a state whose
outline heap extends `base`'s by exactly the entry at `nid`, the republished
collection holds exactly one outline with the merged key, and its render
history is the merged one. -/
theorem filter_renders_final (base s1 : AggState) (nid : Nat)
    (aoN upd : ActiveOutline) (key : String)
    (hout : s1.outlines = heapSet base.outlines nid aoN)
    (hpc : publishedContents s1 = publishedContents base ++ [nid])
    (hlt : ∀ oid ∈ publishedContents base, oid < nid)
    (hold : ∀ oid ∈ publishedContents base, outlineKey base oid ≠ some key)
    (hupd : getKey upd.outline.latestMeasurement.value = key) :
    (publishedContents (getCopiedActiveOutlines
        { s1 with outlines := heapSet s1.outlines nid upd })).filter
      (fun oid => decide (outlineKey (getCopiedActiveOutlines
        { s1 with outlines := heapSet s1.outlines nid upd }) oid = some key)) =
      [nid] ∧
    outlineRenders (getCopiedActiveOutlines
      { s1 with outlines := heapSet s1.outlines nid upd }) nid =
      some upd.outline.renders := by
  have hpub : publishedContents (getCopiedActiveOutlines
      { s1 with outlines := heapSet s1.outlines nid upd }) =
      publishedContents base ++ [nid] := by
    rw [publishedContents_getCopied]
    exact hpc
  have hko : ∀ o, outlineKey (getCopiedActiveOutlines
      { s1 with outlines := heapSet s1.outlines nid upd }) o =
      keyAt (heapSet s1.outlines nid upd) o := fun o => rfl
  constructor
  · rw [hpub, List.filter_append]
    have hA : (publishedContents base).filter
        (fun oid => decide (outlineKey (getCopiedActiveOutlines
          { s1 with outlines := heapSet s1.outlines nid upd }) oid = some key)) =
        [] := by
      apply List.filter_eq_nil_iff.mpr
      intro a ha
      have hne : a ≠ nid := by have := hlt a ha; omega
      have hkeq : outlineKey (getCopiedActiveOutlines
          { s1 with outlines := heapSet s1.outlines nid upd }) a =
          keyAt base.outlines a := by
        rw [hko a, keyAt_heapSet, if_neg hne, hout, keyAt_heapSet, if_neg hne]
      simp only [hkeq, decide_eq_true_eq]
      exact fun hcon => hold a ha (by rw [outlineKey_eq_keyAt]; exact hcon)
    have hkeynid : outlineKey (getCopiedActiveOutlines
        { s1 with outlines := heapSet s1.outlines nid upd }) nid = some key := by
      rw [hko nid, keyAt_heapSet, if_pos rfl, hupd]
    have hB : [nid].filter
        (fun oid => decide (outlineKey (getCopiedActiveOutlines
          { s1 with outlines := heapSet s1.outlines nid upd }) oid = some key)) =
        [nid] := by
      simp only [List.filter_cons, List.filter_nil, hkeynid]
      simp
    rw [hA, hB]
    rfl
  · show (List.lookup nid (heapSet s1.outlines nid upd)).map _ = _
    rw [lookup_heapSet_self]
    rfl

/-- C1: (first conjunct) every aggregation step preserves the invariant that
the published collection holds at most one outline per distinct geometry key;
and (remaining conjuncts) two render events whose resolved geometries have the
same geometry key — even with different host fibers and different rendered
fibers — produce exactly one ActiveOutline holding that key, whose render
history contains both render events in arrival order. -/
theorem geometry_key_collapsing
    (st : AggState) (hf1 hf2 fid1 fid2 : Nat) (m1 m2 : MeasurementValue)
    (r1 r2 : Render) (t1 t2 : Int)
    (hWF : AggWF st) (hKU : KeyUnique st)
    (hkey : getKey m2 = getKey m1)
    (hpx1 : m1.pageX ≠ 0) (hpx2 : m2.pageX ≠ 0)
    (hnew : ∀ oid ∈ publishedContents st, outlineKey st oid ≠ some (getKey m1)) :
    (∀ hf mo fid r now s, AggWF s → KeyUnique s →
      KeyUnique (updateOutlines hf mo fid r now s)) ∧
    (publishedContents (updateOutlines (some hf2) (some m2) fid2 r2 t2
        (updateOutlines (some hf1) (some m1) fid1 r1 t1 st))).filter
      (fun oid => decide (outlineKey (updateOutlines (some hf2) (some m2) fid2 r2 t2
        (updateOutlines (some hf1) (some m1) fid1 r1 t1 st)) oid =
          some (getKey m1))) = [st.nextOutlineId] ∧
    outlineRenders (updateOutlines (some hf2) (some m2) fid2 r2 t2
      (updateOutlines (some hf1) (some m1) fid1 r1 t1 st)) st.nextOutlineId =
      some [r1, r2] := by
  obtain ⟨hctr, hpub, hmem⟩ := hWF
  have hfind1 : findExistingOutline (getKey m1) st.outlines
      (publishedContents st) = .ok none := by
    apply findExisting_of_none
    intro oid hm ao hao
    obtain ⟨-, ao', hao', hnat'⟩ := hmem oid hm
    rw [hao'] at hao
    cases hao
    refine ⟨hnat', fun hcontra => hnew oid hm ?_⟩
    rw [outlineKey_eq_keyAt]
    simp [keyAt, hao', hcontra]
  rw [updateOutlines_create hf1 fid1 m1 r1 t1 st hpx1 hfind1]
  set aoN : ActiveOutline :=
    { outline := { latestMeasurement := { kind := "native", value := m1 }
                   fiberId := fid1, renders := [r1] }
      id := genId st.nextOutlineId
      text := getLabelText [r1] "native"
      updatedAt := t1, alpha := -1, frame := -1, totalFrames := -1 } with haoN
  set L : AggState :=
    { st with
      outlines := heapSet st.outlines st.nextOutlineId aoN
      arrays := heapSet st.arrays st.activeOutlines
        (publishedContents st ++ [st.nextOutlineId])
      nextOutlineId := st.nextOutlineId + 1 } with hL
  set s1 : AggState := getCopiedActiveOutlines L with hs1
  have hout1 : s1.outlines = heapSet st.outlines st.nextOutlineId aoN := rfl
  have hpc1 : publishedContents s1 = publishedContents st ++ [st.nextOutlineId] := by
    rw [hs1, publishedContents_getCopied, hL]
    simp [publishedContents, arrayContents, heapSet, List.lookup]
  have hlt : ∀ oid ∈ publishedContents st, oid < st.nextOutlineId :=
    fun oid hm => (hmem oid hm).1
  have hconts : ∀ oid ∈ publishedContents st, ∀ ao,
      List.lookup oid (heapSet st.outlines st.nextOutlineId aoN) = some ao →
      ao.outline.latestMeasurement.kind = "native" ∧
      getKey ao.outline.latestMeasurement.value ≠ getKey m1 := by
    intro oid hm ao hao
    have hne : oid ≠ st.nextOutlineId := by
      have := hlt oid hm; omega
    rw [lookup_heapSet_ne _ _ _ _ hne] at hao
    obtain ⟨-, ao', hao', hnat'⟩ := hmem oid hm
    rw [hao'] at hao
    cases hao
    refine ⟨hnat', fun hcontra => hnew oid hm ?_⟩
    rw [outlineKey_eq_keyAt]
    simp [keyAt, hao', hcontra]
  have hfind2 : findExistingOutline (getKey m2) s1.outlines
      (publishedContents s1) = .ok (some st.nextOutlineId) := by
    rw [hkey, hout1, hpc1]
    rw [findExisting_append [st.nextOutlineId] hconts]
    rw [findExistingOutline_cons]
    simp only [lookup_heapSet_self]
    rw [assertNative_ok rfl]
    simp [haoN]
  have hlx2 : List.lookup st.nextOutlineId s1.outlines = some aoN := by
    rw [hout1]
    exact lookup_heapSet_self _ _ _
  rw [updateOutlines_merge hf2 fid2 m2 r2 t2 s1 st.nextOutlineId aoN hpx2
    hfind2 hlx2]
  set upd : ActiveOutline :=
    { aoN with
      outline := { aoN.outline with renders := aoN.outline.renders ++ [r2] }
      text := getLabelText (aoN.outline.renders ++ [r2]) "native"
      updatedAt := t2 } with hupdDef
  have hupdkey : getKey upd.outline.latestMeasurement.value = getKey m1 := rfl
  have hfinal := filter_renders_final st s1 st.nextOutlineId aoN upd
    (getKey m1) hout1 hpc1 hlt hnew hupdkey
  refine ⟨fun hf mo fid r now s hW hK =>
    (updateOutlines_preserves hf mo fid r now s hW hK).2, hfinal.1, ?_⟩
  rw [hfinal.2]
  rfl


/-- Witness for C1 at a concrete input: `exMeas` and `exMeas2` share the
geometry key but come from different fibers (0 and 7); after both events the
collection holds exactly one outline with that key, with both renders in
arrival order. -/
theorem geometry_key_collapsing_witness :
    (publishedContents (updateOutlines (some 3) (some exMeas2) 7 { tag := 1 } 200
        (updateOutlines (some 0) (some exMeas) 0 { tag := 0 } 100 initAgg))).filter
      (fun oid => decide (outlineKey (updateOutlines (some 3) (some exMeas2) 7
        { tag := 1 } 200
        (updateOutlines (some 0) (some exMeas) 0 { tag := 0 } 100 initAgg)) oid =
          some (getKey exMeas))) = [initAgg.nextOutlineId] ∧
    outlineRenders (updateOutlines (some 3) (some exMeas2) 7 { tag := 1 } 200
      (updateOutlines (some 0) (some exMeas) 0 { tag := 0 } 100 initAgg))
      initAgg.nextOutlineId = some [{ tag := 0 }, { tag := 1 }] :=
  (geometry_key_collapsing initAgg 0 3 0 7 exMeas exMeas2
    { tag := 0 } { tag := 1 } 100 200
    ⟨by decide, by decide, by
      intro oid h
      simp [publishedContents, arrayContents, initAgg, List.lookup] at h⟩
    List.Pairwise.nil rfl (by decide) (by decide)
    (by
      intro oid h
      simp [publishedContents, arrayContents, initAgg, List.lookup] at h)).2

end ReactScan
